import Mathlib

/-!
Shallow embedding of `src/stack.cpp` (repository Stack_d3phys): a
self-verifying LIFO container over a contiguous growable buffer, in its
fully protected build (`CANARY_PROTECT` and `HASH_PROTECT` both defined,
`UNPROTECT` not defined), which is the configuration the specification
describes (guards and checksum present).

Modelling conventions:
* `size_t` is `Nat`; where the source performs `size_t` arithmetic that can
  wrap (the capacity doubling `capacity *= CAP_FACTOR`), the wrap is made
  explicit with `% W64`.  `size++` and `--size` cannot wrap at their call
  sites (they are reached only with `size ≤ capacity ≤ CAP_MAX < 2^64`,
  resp. `size ≥ 1`), so they are plain `+ 1` / `- 1`.
* The heap allocation owned by the stack is a `Buffer`: its base address is
  an abstract `Nat` (`addr`), its payload the list `data`, and the two guard
  words flanking the payload are `lcanary`/`rcanary`.  Byte-level layout
  (alignment padding of the right canary, `sizeof` arithmetic) is memory
  layout and is outside the embedding; the canary values themselves,
  including their XOR with the buffer base address, are modelled.
* `realloc` success/failure is an oracle (`allocOk : Bool`) passed to every
  operation that may reallocate; relocation of the buffer (a changed base
  address) is not represented, the model keeps the address.
* Writing through a null `items` pointer is undefined behaviour in the
  source; the model makes `store_item`/`read_item` total (no-op / poison)
  there.  All states reached in the theorems below have a non-null buffer.
-/

/-- Byte used by `memset` to poison memory: the character code of `u`. -/
def FILL_BYTE : Nat := 0x75

/-- Modelled from the spec: `item_t` is a fixed-width numeric element type;
`include/stack.h` is not part of `src/`.  The dump routine prints items with
`%d`, so the element is a 4-byte `int`; 4 is its byte size. -/
def ITEM_SIZE : Nat := 4

/-- The element type.  Values are unbounded integers; only the bit pattern
of the poison sentinel (all bytes `FILL_BYTE`) is fixed by the source. -/
abbrev item_t := Int

/-- Model of `get_poison`: builds the value whose `ITEM_SIZE` bytes all equal `byte`
(the source does `memset(&poison, byte, sizeof(item_t))`). -/
def get_poison (byte : Nat) : item_t :=
  Int.ofNat ((List.range ITEM_SIZE).foldl (fun a i => a + byte * 256 ^ i) 0)

/-- The constant `POISON = get_poison(FILL_BYTE)`: the poison sentinel `0x75757575`. -/
def POISON : item_t := get_poison FILL_BYTE

/-- Minimum (initial) capacity. -/
def INIT_CAP : Nat := 8

/-- Growth / shrink factor. -/
def CAP_FACTOR : Nat := 2

/-- Value of `SIZE_MAX` on the modelled 64-bit platform. -/
def SIZE_MAX : Nat := 2 ^ 64 - 1

/-- The constant `CAP_MAX = ~(SIZE_MAX >> 1)`: on 64 bits the bitwise complement of
`SIZE_MAX >> 1` is `SIZE_MAX - (SIZE_MAX >> 1) = 2^63`, the highest
representable power of two of `size_t`. -/
def CAP_MAX : Nat := SIZE_MAX - (SIZE_MAX >>> 1)

/-- Modulus of `size_t` arithmetic. -/
def W64 : Nat := 2 ^ 64

/-- Modelled from the spec: the fixed canary constant lives in
`include/config.h`, which is not part of `src/`; only that it is a fixed
nonzero word matters. -/
def CANARY : Nat := 0xDEADBEEF

/-- Modelled from the spec: the hash seed lives in `include/config.h`,
which is not part of `src/`; only determinism matters. -/
def SEED : Nat := 0xABCD1234

/-- Modelled from the spec: the seeded mixing hash (`murmur_hash` of
`include/hash.h`, not part of `src/`).  The spec mandates only that it is a
pure deterministic function of the bytes and the seed, so any concrete
mixing fold is a faithful model. -/
def murmur_hash (bytes : List Nat) (seed : Nat) : Nat :=
  bytes.foldl (fun h b => Nat.xor (h * 31 + b) (h / 16) % 2 ^ 32) (seed % 2 ^ 32)

/-- Modelled from the spec: the verification flag for a non-null `items`
field in `verify_empty_stack` (`include/stack.h` is not part of `src/`);
the flags form a bitmask, one distinct bit each. -/
def INVALID_ITEMS : Nat := 1

/-- Modelled from the spec: capacity-out-of-range verification bit. -/
def INVALID_CAPACITY : Nat := 2

/-- Modelled from the spec: size-exceeds-capacity verification bit. -/
def INVALID_SIZE : Nat := 4

/-- Modelled from the spec: checksum-mismatch verification bit. -/
def INVALID_HASH : Nat := 8

/-- Modelled from the spec: left metadata-guard verification bit. -/
def INVALID_STK_LCNRY : Nat := 16

/-- Modelled from the spec: right metadata-guard verification bit. -/
def INVALID_STK_RCNRY : Nat := 32

/-- Modelled from the spec: left buffer-guard verification bit. -/
def INVALID_DATA_LCNRY : Nat := 64

/-- Modelled from the spec: right buffer-guard verification bit. -/
def INVALID_DATA_RCNRY : Nat := 128

/-- Modelled from the spec: the allocation-failure error code (distinct
from every verification bit and from `STK_EMPTY_POP`). -/
def STK_BAD_ALLOC : Nat := 256

/-- Modelled from the spec: the pop-from-empty error code. -/
def STK_EMPTY_POP : Nat := 512

/-- The heap allocation owned by a stack: abstract base address, the
payload slots, and the two guard words flanking the payload. -/
structure Buffer where
  addr : Nat
  data : List item_t
  lcanary : Nat
  rcanary : Nat
deriving DecidableEq, Repr

/-- The `stack_t` record: buffer pointer (`none` = null), capacity, logical
size, content checksum and the two metadata guard words. -/
structure stack_t where
  items : Option Buffer
  capacity : Nat
  size : Nat
  hash : Nat
  left_canary : Nat
  right_canary : Nat
deriving DecidableEq, Repr

/-- A freshly zero-initialized stack. -/
def zero_stack : stack_t :=
  { items := none, capacity := 0, size := 0, hash := 0,
    left_canary := 0, right_canary := 0 }

/-- One 4-byte word of an element as fed to the hash. -/
def item_word (v : item_t) : Nat := Int.toNat (v % (2 : Int) ^ 32)

/-- The bytes of the `stack_t` record itself, as hashed by
`murmur_hash(stk, sizeof(stack_t), seed)`: every field, with the buffer
pointer represented by the abstract base address (0 for null). -/
def stack_bytes (s : stack_t) : List Nat :=
  [(match s.items with | some b => b.addr | none => 0),
   s.capacity, s.size, s.hash, s.left_canary, s.right_canary]

/-- The payload region hashed by
`murmur_hash(stk->items, stk->capacity * sizeof(item_t), seed)`: the first
`capacity` slots of the buffer (null buffer: nothing, a null dereference in
the source, unreachable from verified states). -/
def data_bytes (s : stack_t) : List Nat :=
  match s.items with
  | some b => (b.data.take s.capacity).map item_word
  | none => []

/-- Model of `hash_stack`: saves the stored hash, zeroes the hash field, hashes the
record and the payload region, restores the field, and returns the XOR of
the two hashes together with the (net unchanged) stack. -/
def hash_stack (stk : stack_t) : Nat × stack_t :=
  let hash := stk.hash
  let stk1 : stack_t := { stk with hash := 0 }
  let stk_hash := murmur_hash (stack_bytes stk1) SEED
  let data_hash := murmur_hash (data_bytes stk1) SEED
  (Nat.xor stk_hash data_hash, { stk1 with hash := hash })

/-- Model of `verify_empty_stack`: bitmask of the fields that are not at their
zero/unconstructed value. -/
def verify_empty_stack (stk : stack_t) : Nat :=
  let vrf := 0
  let vrf := if stk.items ≠ none then vrf ||| INVALID_ITEMS else vrf
  let vrf := if stk.capacity ≠ 0 then vrf ||| INVALID_CAPACITY else vrf
  let vrf := if stk.size ≠ 0 then vrf ||| INVALID_SIZE else vrf
  let vrf := if stk.hash ≠ 0 then vrf ||| INVALID_HASH else vrf
  let vrf := if stk.left_canary ≠ 0 then vrf ||| INVALID_STK_LCNRY else vrf
  let vrf := if stk.right_canary ≠ 0 then vrf ||| INVALID_STK_RCNRY else vrf
  vrf

/-- Model of `verify_stack`: bitmask of violated invariants.  The hash comparison
calls `hash_stack`, which temporarily mutates the hash field; the returned
stack is the state after the call (net unchanged, theorem below). -/
def verify_stack (stk : stack_t) : Nat × stack_t :=
  let vrf := 0
  let vrf := if stk.capacity > CAP_MAX ∨ stk.capacity < INIT_CAP
             then vrf ||| INVALID_CAPACITY else vrf
  let vrf := if stk.size > stk.capacity then vrf ||| INVALID_SIZE else vrf
  let vrf := match stk.items with
    | some b =>
      let cnry := Nat.xor CANARY b.addr
      let vrf := if b.lcanary ≠ cnry then vrf ||| INVALID_DATA_LCNRY else vrf
      if b.rcanary ≠ cnry then vrf ||| INVALID_DATA_RCNRY else vrf
    | none => vrf
  let vrf := if stk.left_canary ≠ CANARY then vrf ||| INVALID_STK_LCNRY else vrf
  let vrf := if stk.right_canary ≠ CANARY then vrf ||| INVALID_STK_RCNRY else vrf
  match stk.items with
  | some _ =>
    let r := hash_stack stk
    (if stk.hash ≠ r.1 then vrf ||| INVALID_HASH else vrf, r.2)
  | none => (vrf, stk)

/-- Model of `expandable`: the stack is full. -/
def expandable (stk : stack_t) : Bool := stk.capacity == stk.size

/-- Model of `shrinkable`: the stack is over-provisioned
(`capacity / (CAP_FACTOR*CAP_FACTOR) + 1 >= size`) and above the minimum
capacity. -/
def shrinkable (stk : stack_t) : Bool :=
  decide (stk.capacity / (CAP_FACTOR * CAP_FACTOR) + 1 ≥ stk.size) &&
  decide (stk.capacity > INIT_CAP)

/-- Model of `realloc_stack`: reallocates the buffer to `capacity` slots.  On
success the first `min(old length, size)` elements are preserved by
`realloc`, `memset` fills slots `[size, capacity)` with the poison pattern,
and both guard words are rewritten as `CANARY ^ base address`.  Failure of
the underlying `realloc` is the oracle `allocOk = false`. -/
def realloc_stack (stk : stack_t) (capacity : Nat) (allocOk : Bool) :
    Option Buffer :=
  if allocOk then
    let old := match stk.items with | some b => b.data | none => []
    let addr := match stk.items with | some b => b.addr | none => 0
    some { addr := addr,
           data := old.take stk.size ++ List.replicate (capacity - stk.size) POISON,
           lcanary := Nat.xor CANARY addr,
           rcanary := Nat.xor CANARY addr }
  else none

/-- Write `stk->items[i] = v` (no-op on a null buffer, where the source has
undefined behaviour; unreachable from verified states). -/
def store_item (s : stack_t) (i : Nat) (v : item_t) : stack_t :=
  match s.items with
  | some b => { s with items := some { b with data := b.data.set i v } }
  | none => s

/-- Read `stk->items[i]` (poison on a null buffer or out of range, where
the source has undefined behaviour; unreachable from verified states). -/
def read_item (s : stack_t) (i : Nat) : item_t :=
  match s.items with
  | some b => b.data.getD i POISON
  | none => POISON

/-- The hash refresh `stk->hash = hash_stack(stk)` performed after every
successful mutation. -/
def rehash (t : stack_t) : stack_t := { t with hash := (hash_stack t).1 }

/-- The payload list of the stack's buffer (empty for a null buffer). -/
def buf_data (s : stack_t) : List item_t :=
  match s.items with
  | some b => b.data
  | none => []

/-- The base address of the stack's buffer (0 for a null buffer). -/
def buf_addr (s : stack_t) : Nat :=
  match s.items with
  | some b => b.addr
  | none => 0

/-- Model of `construct_stack`: checks the zeroed precondition, allocates at
`INIT_CAP`, initializes the fields and guards, computes the initial hash
and re-verifies.  Returns the final state and the reported error (0 =
success = non-null return in the source). -/
def construct_stack (stk : stack_t) (allocOk : Bool) : stack_t × Nat :=
  let err := verify_empty_stack stk
  if err ≠ 0 then (stk, err)
  else
    match realloc_stack stk INIT_CAP allocOk with
    | none => (stk, STK_BAD_ALLOC)
    | some items =>
      let stk1 : stack_t :=
        { stk with capacity := INIT_CAP, items := some items, size := 0,
                   left_canary := CANARY, right_canary := CANARY }
      let stk2 := rehash stk1
      ((verify_stack stk2).2, (verify_stack stk2).1)

/-- Common tail of `push_stack` after the optional growth:
`stk->items[stk->size++] = item`, hash refresh, post-verification. -/
def push_store (s : stack_t) (item : item_t) : stack_t × Nat :=
  let s1 := store_item s s.size item
  let s2 : stack_t := { s1 with size := s1.size + 1 }
  let s3 := rehash s2
  ((verify_stack s3).2, (verify_stack s3).1)

/-- Model of `push_stack`: verify, grow by doubling (mod `2^64`, as `size_t`
arithmetic) when full, store the item, refresh the hash, re-verify.
Returns the final state and the reported error. -/
def push_stack (stk : stack_t) (item : item_t) (allocOk : Bool) :
    stack_t × Nat :=
  let err := (verify_stack stk).1
  let s1 := (verify_stack stk).2
  if err ≠ 0 then (s1, err)
  else if expandable s1 then
    let capacity := s1.capacity * CAP_FACTOR % W64
    match realloc_stack s1 capacity allocOk with
    | none => (s1, STK_BAD_ALLOC)
    | some items =>
      push_store { s1 with capacity := capacity, items := some items } item
  else push_store s1 item

/-- Common tail of `pop_stack` after the optional shrink:
`item = stk->items[--stk->size]`, poison the vacated slot, refresh the
hash, post-verify.  Returns item, final state and reported error. -/
def pop_finish (s : stack_t) : item_t × stack_t × Nat :=
  let s1 : stack_t := { s with size := s.size - 1 }
  let item := read_item s1 s1.size
  let s2 := store_item s1 s1.size POISON
  let s3 := rehash s2
  (item, (verify_stack s3).2, (verify_stack s3).1)

/-- Model of `pop_stack`: verify, fail on empty, shrink by halving when
over-provisioned, remove the top element.  Returns the popped item (poison
on every failure path), the final state and the reported error. -/
def pop_stack (stk : stack_t) (allocOk : Bool) : item_t × stack_t × Nat :=
  let err := (verify_stack stk).1
  let s1 := (verify_stack stk).2
  if err ≠ 0 then (POISON, s1, err)
  else if s1.size == 0 then (POISON, s1, STK_EMPTY_POP)
  else if shrinkable s1 then
    let capacity := s1.capacity / CAP_FACTOR
    match realloc_stack s1 capacity allocOk with
    | none => (POISON, s1, STK_BAD_ALLOC)
    | some items =>
      pop_finish { s1 with items := some items, capacity := capacity }
  else pop_finish s1

/-- Model of `destruct_stack`: frees the buffer if non-null (the returned flag
records whether `free` was called) and zeroes every field. -/
def destruct_stack (stk : stack_t) : stack_t × Bool :=
  (zero_stack, stk.items.isSome)

/-- One public mutating operation together with its allocation oracle. -/
inductive Op where
  | push (x : item_t) (allocOk : Bool)
  | pop (allocOk : Bool)
deriving DecidableEq, Repr

/-- Apply one operation to a stack (the state after the call). -/
def step (s : stack_t) (op : Op) : stack_t :=
  match op with
  | Op.push x ok => (push_stack s x ok).1
  | Op.pop ok => (pop_stack s ok).2.1

/-- Apply a sequence of operations. -/
def run (s : stack_t) (ops : List Op) : stack_t := ops.foldl step s

/-- Push a list of values left to right (allocation succeeding); the flag
records that every push reported success. -/
def run_pushes : stack_t → List item_t → stack_t × Bool
  | s, [] => (s, true)
  | s, x :: xs =>
    let r := push_stack s x true
    let r2 := run_pushes r.1 xs
    (r2.1, (r.2 == 0) && r2.2)

/-- Pop `n` times (allocation succeeding), collecting the returned items in
order. -/
def run_pops : stack_t → Nat → List item_t × stack_t
  | s, 0 => ([], s)
  | s, n + 1 =>
    let r := pop_stack s true
    let r2 := run_pops r.2.1 n
    (r.1 :: r2.1, r2.2)

/-- The stack produced by a successful construct on a zeroed stack. -/
def fresh_stack : stack_t := (construct_stack zero_stack true).1

/-- A live stack with the given capacity, size and payload, guard words in
place, hash field still unset (buffer base address 0). -/
def mk_base (cap sz : Nat) (data : List item_t) : stack_t :=
  { items := some { addr := 0, data := data,
                    lcanary := Nat.xor CANARY 0, rcanary := Nat.xor CANARY 0 },
    capacity := cap, size := sz, hash := 0,
    left_canary := CANARY, right_canary := CANARY }

/-- A live stack with the given capacity, size and payload, its guards in
place and its hash consistent (buffer base address 0). -/
def mk_live (cap sz : Nat) (data : List item_t) : stack_t :=
  rehash (mk_base cap sz data)

/-- The logical content of the stack, bottom first. -/
def content (s : stack_t) : List item_t :=
  match s.items with
  | none => []
  | some b => b.data.take s.size

/-- A capacity the growth policy can produce: `INIT_CAP` times a power of
two. -/
def cap_ok (c : Nat) : Prop := ∃ k, c = INIT_CAP * 2 ^ k

/-- Structural well-formedness of a live stack: non-null buffer of exactly
`capacity` slots, `size ≤ capacity`, capacity in policy range, and all four
guard words in place. -/
def WfCore (s : stack_t) : Prop :=
  match s.items with
  | none => False
  | some b =>
    b.data.length = s.capacity ∧ s.size ≤ s.capacity ∧ cap_ok s.capacity ∧
    s.capacity ≤ CAP_MAX ∧
    b.lcanary = Nat.xor CANARY b.addr ∧ b.rcanary = Nat.xor CANARY b.addr ∧
    s.left_canary = CANARY ∧ s.right_canary = CANARY

/-- Well-formed live stack: structurally sound and hash-consistent. -/
def Wf (s : stack_t) : Prop := WfCore s ∧ s.hash = (hash_stack s).1

theorem hash_stack_snd (s : stack_t) : (hash_stack s).2 = s := by
  cases s; rfl

theorem hash_stack_fst_set (s : stack_t) (h : Nat) :
    (hash_stack { s with hash := h }).1 = (hash_stack s).1 := by
  cases s; rfl

theorem verify_stack_snd (s : stack_t) : (verify_stack s).2 = s := by
  cases s with
  | mk items capacity size hash lc rc => cases items <;> rfl

theorem CAP_MAX_eq : CAP_MAX = 2 ^ 63 := by decide

theorem cap_ok_init : cap_ok INIT_CAP := ⟨0, by decide⟩

theorem cap_ok_ge {c : Nat} (hc : cap_ok c) : INIT_CAP ≤ c := by
  obtain ⟨k, rfl⟩ := hc
  have h1 : 1 ≤ 2 ^ k := Nat.one_le_two_pow
  calc INIT_CAP = INIT_CAP * 1 := (Nat.mul_one _).symm
    _ ≤ INIT_CAP * 2 ^ k := Nat.mul_le_mul_left _ h1

theorem cap_ok_double {c : Nat} (hc : cap_ok c) : cap_ok (c * CAP_FACTOR) := by
  obtain ⟨k, rfl⟩ := hc
  refine ⟨k + 1, ?_⟩
  rw [pow_succ]
  simp [INIT_CAP, CAP_FACTOR]
  ring

theorem cap_ok_half {c : Nat} (hc : cap_ok c) (h : INIT_CAP < c) :
    cap_ok (c / CAP_FACTOR) ∧ 16 ≤ c := by
  obtain ⟨k, rfl⟩ := hc
  cases k with
  | zero => simp [INIT_CAP] at h
  | succ n =>
    constructor
    · exact ⟨n, by rw [pow_succ]; simp [CAP_FACTOR, INIT_CAP]; ring_nf; omega⟩
    · have h1 : 1 ≤ 2 ^ n := Nat.one_le_two_pow
      calc (16:Nat) = 8 * 2 * 1 := by norm_num
        _ ≤ 8 * 2 * 2 ^ n := Nat.mul_le_mul_left _ h1
        _ = INIT_CAP * 2 ^ (n + 1) := by rw [pow_succ]; simp [INIT_CAP]; ring

theorem lor_ne_zero_right {a b : Nat} (h : b ≠ 0) : a ||| b ≠ 0 := by
  intro hc
  obtain ⟨i, hi⟩ := Nat.ne_zero_implies_bit_true h
  have := congrArg (fun x => Nat.testBit x i) hc
  simp [hi] at this

theorem lor_ne_zero_left {a b : Nat} (h : a ≠ 0) : a ||| b ≠ 0 := by
  intro hc
  obtain ⟨i, hi⟩ := Nat.ne_zero_implies_bit_true h
  have := congrArg (fun x => Nat.testBit x i) hc
  simp [hi] at this

theorem verify_stack_fst_of_wf {s : stack_t} (h : Wf s) : (verify_stack s).1 = 0 := by
  obtain ⟨hc, hh⟩ := h
  unfold WfCore at hc
  cases hs : s.items with
  | none => rw [hs] at hc; exact hc.elim
  | some b =>
    rw [hs] at hc
    obtain ⟨hlen, hsz, hcap, hmax, hlc, hrc, hslc, hsrc⟩ := hc
    have h8 : INIT_CAP ≤ s.capacity := cap_ok_ge hcap
    have hcond : ¬(s.capacity > CAP_MAX ∨ s.capacity < INIT_CAP) := by omega
    simp only [verify_stack, hs, hh, hlc, hrc, hslc, hsrc]
    rw [if_neg hcond, if_neg (by omega : ¬ s.size > s.capacity)]
    simp [hash_stack_snd]

theorem WfCore_rehash (t : stack_t) : WfCore (rehash t) ↔ WfCore t := by
  cases t with
  | mk items capacity size hash lc rc => cases items <;> exact Iff.rfl

theorem content_rehash (t : stack_t) : content (rehash t) = content t := by
  cases t with
  | mk items capacity size hash lc rc => cases items <;> rfl

theorem rehash_wf {t : stack_t} (hc : WfCore t) : Wf (rehash t) := by
  refine ⟨(WfCore_rehash t).2 hc, ?_⟩
  show (hash_stack t).1 = (hash_stack (rehash t)).1
  exact (hash_stack_fst_set t _).symm

theorem verify_of_wf {t : stack_t} (h : Wf t) : verify_stack t = (0, t) := by
  have h1 := verify_stack_fst_of_wf h
  have h2 := verify_stack_snd t
  exact Prod.ext h1 h2

theorem verify_rehash {t : stack_t} (hc : WfCore t) :
    verify_stack (rehash t) = (0, rehash t) := verify_of_wf (rehash_wf hc)

theorem take_succ_set {l : List item_t} {n : Nat} (h : n < l.length) (x : item_t) :
    (l.set n x).take (n + 1) = l.take n ++ [x] := by
  rw [List.take_succ, List.set_take, List.set_eq_of_length_le (by simp)]
  rw [List.getElem?_set_self h]
  rfl

theorem push_store_spec {s : stack_t} (hc : WfCore s) (hlt : s.size < s.capacity)
    (x : item_t) :
    (push_store s x).2 = 0 ∧ Wf (push_store s x).1 ∧
    (push_store s x).1.size = s.size + 1 ∧
    (push_store s x).1.capacity = s.capacity ∧
    content (push_store s x).1 = content s ++ [x] := by
  cases hs : s.items with
  | none => unfold WfCore at hc; rw [hs] at hc; exact hc.elim
  | some b =>
    have hc2 := hc
    unfold WfCore at hc2
    rw [hs] at hc2
    obtain ⟨hlen, hsz, hcap, hmax, hlc, hrc, hslc, hsrc⟩ := hc2
    have hlt2 : s.size < b.data.length := by omega
    have hcore2 : WfCore { store_item s s.size x with
                           size := (store_item s s.size x).size + 1 } := by
      simp only [store_item, hs]
      unfold WfCore
      simp only []
      exact ⟨by simpa using hlen, by simpa using hlt, hcap, hmax, hlc, hrc, hslc, hsrc⟩
    simp only [push_store]
    rw [verify_rehash hcore2]
    refine ⟨rfl, rehash_wf hcore2, ?_, ?_, ?_⟩
    · simp [rehash, store_item, hs]
    · simp [rehash, store_item, hs]
    · rw [content_rehash]
      simp only [store_item, hs, content]
      rw [take_succ_set hlt2 x]

/-- The buffer produced by a successful `realloc_stack` on a stack whose
buffer is `b`: `realloc` keeps the first `size` slots, `memset` poisons the
rest, and the guards are rewritten. -/
def realloc_buf (b : Buffer) (sz c : Nat) : Buffer :=
  { addr := b.addr,
    data := b.data.take sz ++ List.replicate (c - sz) POISON,
    lcanary := Nat.xor CANARY b.addr,
    rcanary := Nat.xor CANARY b.addr }

theorem realloc_stack_eq {s : stack_t} {b : Buffer} (hs : s.items = some b)
    (c : Nat) : realloc_stack s c true = some (realloc_buf b s.size c) := by
  simp [realloc_stack, realloc_buf, hs]

theorem WfCore_mk {s : stack_t} {b : Buffer} (hs : s.items = some b)
    (h1 : b.data.length = s.capacity) (h2 : s.size ≤ s.capacity)
    (h3 : cap_ok s.capacity) (h4 : s.capacity ≤ CAP_MAX)
    (h5 : b.lcanary = Nat.xor CANARY b.addr)
    (h6 : b.rcanary = Nat.xor CANARY b.addr)
    (h7 : s.left_canary = CANARY) (h8 : s.right_canary = CANARY) :
    WfCore s := by
  unfold WfCore
  rw [hs]
  exact ⟨h1, h2, h3, h4, h5, h6, h7, h8⟩

theorem cap_ok_double_le {c : Nat} (hc : cap_ok c) (h : c < CAP_MAX) :
    c * CAP_FACTOR ≤ CAP_MAX := by
  obtain ⟨k, rfl⟩ := hc
  rw [CAP_MAX_eq] at h ⊢
  have h1 : INIT_CAP * 2 ^ k * CAP_FACTOR = 2 ^ (k + 4) := by
    simp [INIT_CAP, CAP_FACTOR]
    rw [pow_succ, pow_succ, pow_succ, pow_succ]
    ring
  have h2 : INIT_CAP * 2 ^ k = 2 ^ (k + 3) := by
    simp [INIT_CAP]
    rw [pow_succ, pow_succ, pow_succ]
    ring
  rw [h1]
  rw [h2] at h
  have h3 : k + 3 < 63 := (Nat.pow_lt_pow_iff_right (by norm_num)).1 h
  exact Nat.pow_le_pow_right (by norm_num) (by omega)

theorem push_spec {s : stack_t} (h : Wf s) (hsz : s.size < CAP_MAX) (x : item_t)
    (ok : Bool) (hok : ok = true ∨ s.size ≠ s.capacity) :
    (push_stack s x ok).2 = 0 ∧ Wf (push_stack s x ok).1 ∧
    (push_stack s x ok).1.size = s.size + 1 ∧
    (push_stack s x ok).1.capacity =
      (if s.size = s.capacity then s.capacity * CAP_FACTOR else s.capacity) ∧
    content (push_stack s x ok).1 = content s ++ [x] := by
  have hv := verify_of_wf h
  cases hs : s.items with
  | none => exact absurd h.1 (by unfold WfCore; rw [hs]; exact id)
  | some b =>
    have hc2 := h.1
    unfold WfCore at hc2
    rw [hs] at hc2
    obtain ⟨hlen, hsle, hcap, hmax, hlc, hrc, hslc, hsrc⟩ := hc2
    by_cases hfull : s.capacity = s.size
    · -- expandable: must have ok = true
      have hok2 : ok = true := by
        rcases hok with h1 | h1
        · exact h1
        · exact absurd hfull.symm h1
      subst hok2
      have hexp : expandable s = true := by
        simp [expandable, hfull]
      have hnowrap : s.capacity * CAP_FACTOR < W64 := by
        have h5 := hfull ▸ hsz
        rw [CAP_MAX_eq] at h5
        simp only [W64, CAP_FACTOR]
        omega
      have hcap2 : s.capacity * CAP_FACTOR % W64 = s.capacity * CAP_FACTOR :=
        Nat.mod_eq_of_lt hnowrap
      have hpos : 0 < s.size := by
        have h8 := cap_ok_ge hcap
        simp [INIT_CAP] at h8
        omega
      have hre := realloc_stack_eq hs (s.capacity * CAP_FACTOR % W64)
      have hdata : b.data.take s.size = b.data :=
        List.take_of_length_le (by omega)
      have hcap2' : s.size ≤ s.capacity * CAP_FACTOR % W64 := by
        rw [hcap2]
        simp [CAP_FACTOR]
        omega
      have hcoreMid : WfCore
          { items := some (realloc_buf b s.size (s.capacity * CAP_FACTOR % W64)),
            capacity := s.capacity * CAP_FACTOR % W64, size := s.size,
            hash := s.hash, left_canary := s.left_canary,
            right_canary := s.right_canary } := by
        refine WfCore_mk rfl ?_ ?_ ?_ ?_ rfl rfl hslc hsrc
        · simp [realloc_buf, hdata]
          omega
        · exact hcap2'
        · simp only []
          rw [hcap2]
          exact cap_ok_double hcap
        · simp only []
          rw [hcap2]
          exact cap_ok_double_le hcap (hfull ▸ hsz)
      have hltMid : s.size < s.capacity * CAP_FACTOR % W64 := by
        rw [hcap2]
        simp [CAP_FACTOR]
        omega
      obtain ⟨p1, p2, p3, p4, p5⟩ := push_store_spec hcoreMid hltMid x
      simp only [push_stack, hv]
      rw [if_neg (by simp), if_pos hexp, hre]
      refine ⟨p1, p2, ?_, ?_, ?_⟩
      · rw [p3]
      · rw [p4]
        simp only []
        rw [hcap2, if_pos hfull.symm]
      · rw [p5]
        simp only [content, hs, realloc_buf]
        congr 1
        rw [List.take_append_of_le_length (by simp; omega), hdata,
            List.take_of_length_le (by omega)]
    · -- not expandable
      have hexp : expandable s = false := by
        simp [expandable]
        omega
      obtain ⟨p1, p2, p3, p4, p5⟩ := push_store_spec h.1 (by omega) x
      simp only [push_stack, hv]
      rw [if_neg (by simp), hexp]
      simp only [Bool.false_eq_true, if_false]
      exact ⟨p1, p2, p3, by rw [p4, if_neg (by omega)], p5⟩

@[simp] theorem store_item_capacity (s : stack_t) (i : Nat) (v : item_t) :
    (store_item s i v).capacity = s.capacity := by
  cases hs : s.items <;> simp [store_item, hs]

@[simp] theorem store_item_size (s : stack_t) (i : Nat) (v : item_t) :
    (store_item s i v).size = s.size := by
  cases hs : s.items <;> simp [store_item, hs]

@[simp] theorem rehash_capacity (t : stack_t) : (rehash t).capacity = t.capacity := rfl

@[simp] theorem rehash_size (t : stack_t) : (rehash t).size = t.size := rfl

theorem push_store_fst (s : stack_t) (x : item_t) :
    (push_store s x).1 =
      rehash { store_item s s.size x with size := (store_item s s.size x).size + 1 } := by
  simp only [push_store]
  exact verify_stack_snd _

theorem verify_fst_ne_zero_of_bad_cap {t : stack_t} (h : t.capacity < INIT_CAP) :
    (verify_stack t).1 ≠ 0 := by
  simp only [verify_stack]
  rw [if_pos (Or.inr h)]
  split <;> dsimp only <;> repeat' split
  all_goals decide

theorem push_store_snd_ne_zero {s : stack_t} (h : s.capacity < INIT_CAP)
    (x : item_t) : (push_store s x).2 ≠ 0 := by
  simp only [push_store]
  apply verify_fst_ne_zero_of_bad_cap
  simpa using h

theorem push_fail {s : stack_t} (h : Wf s) (hfull : s.capacity = s.size)
    (x : item_t) : push_stack s x false = (s, STK_BAD_ALLOC) := by
  have hv := verify_of_wf h
  have hexp : expandable s = true := by simp [expandable, hfull]
  simp only [push_stack, hv]
  rw [if_neg (by simp), if_pos hexp]
  have hre : realloc_stack s (s.capacity * CAP_FACTOR % W64) false = none := by
    simp [realloc_stack]
  rw [hre]

theorem push_overflow {s : stack_t} (h : Wf s) (hsz : s.size = CAP_MAX)
    (hcapm : s.capacity = CAP_MAX) (x : item_t) :
    (push_stack s x true).1.capacity = 0 ∧
    (push_stack s x true).1.size = CAP_MAX + 1 ∧
    (push_stack s x true).2 ≠ 0 := by
  have hv := verify_of_wf h
  cases hs : s.items with
  | none => exact absurd h.1 (by unfold WfCore; rw [hs]; exact id)
  | some b =>
    have hexp : expandable s = true := by
      simp [expandable, hcapm, hsz]
    have hzero : s.capacity * CAP_FACTOR % W64 = 0 := by
      rw [hcapm]
      decide
    have hre := realloc_stack_eq hs (s.capacity * CAP_FACTOR % W64)
    simp only [push_stack, hv]
    rw [if_neg (by simp), if_pos hexp, hre]
    refine ⟨?_, ?_, ?_⟩
    · rw [push_store_fst]
      simp [hzero]
    · rw [push_store_fst]
      simp [hsz]
    · apply push_store_snd_ne_zero
      simp only [hzero]
      simp [INIT_CAP]

theorem dropLast_take_le {α : Type} {l : List α} {n : Nat} (h : n ≤ l.length) :
    (l.take n).dropLast = l.take (n - 1) := by
  rw [List.dropLast_eq_take, List.take_take, List.length_take]
  congr 1
  omega

theorem getLastD_take {α : Type} {l : List α} {n : Nat} (d : α) (h1 : 1 ≤ n)
    (h2 : n ≤ l.length) : (l.take n).getLastD d = l.getD (n - 1) d := by
  rw [List.getLastD_eq_getLast?, List.getLast?_eq_getElem?, List.length_take]
  rw [List.getElem?_take_of_lt (by omega)]
  rw [List.getD_eq_getElem?_getD]
  congr 2
  omega

theorem take_set_self {α : Type} (l : List α) (n : Nat) (x : α) :
    (l.set n x).take n = l.take n := by
  rw [List.set_take, List.set_eq_of_length_le (by simp)]

theorem pop_finish_spec {s : stack_t} (hc : WfCore s) (hpos : 1 ≤ s.size) :
    (pop_finish s).2.2 = 0 ∧ Wf (pop_finish s).2.1 ∧
    (pop_finish s).2.1.size = s.size - 1 ∧
    (pop_finish s).2.1.capacity = s.capacity ∧
    content (pop_finish s).2.1 = (content s).dropLast ∧
    (pop_finish s).1 = (content s).getLastD POISON := by
  cases hs : s.items with
  | none => unfold WfCore at hc; rw [hs] at hc; exact hc.elim
  | some b =>
    have hc2 := hc
    unfold WfCore at hc2
    rw [hs] at hc2
    obtain ⟨hlen, hsle, hcap, hmax, hlc, hrc, hslc, hsrc⟩ := hc2
    have hcore2 : WfCore (store_item { s with size := s.size - 1 }
        ({ s with size := s.size - 1 } : stack_t).size POISON) := by
      simp only [store_item, hs]
      refine WfCore_mk rfl ?_ ?_ hcap hmax hlc hrc hslc hsrc
      · simpa using hlen
      · simp
        omega
    simp only [pop_finish]
    rw [verify_rehash hcore2]
    refine ⟨rfl, rehash_wf hcore2, ?_, ?_, ?_, ?_⟩
    · simp
    · simp
    · rw [content_rehash]
      simp only [store_item, hs, content]
      rw [take_set_self]
      rw [dropLast_take_le (by omega)]
    · simp only [read_item, hs, content]
      rw [getLastD_take POISON hpos (by omega)]

theorem shrinkable_bounds {s : stack_t} (h : shrinkable s = true) :
    s.size ≤ s.capacity / (CAP_FACTOR * CAP_FACTOR) + 1 ∧ INIT_CAP < s.capacity := by
  simp only [shrinkable, Bool.and_eq_true, decide_eq_true_eq] at h
  exact h

theorem pop_empty {s : stack_t} (h : Wf s) (hsz : s.size = 0) (ok : Bool) :
    pop_stack s ok = (POISON, s, STK_EMPTY_POP) := by
  have hv := verify_of_wf h
  simp only [pop_stack, hv]
  rw [if_neg (by simp)]
  rw [if_pos (by simp [hsz])]

theorem pop_shrink_fail {s : stack_t} (h : Wf s) (hpos : 1 ≤ s.size)
    (hshr : shrinkable s = true) :
    pop_stack s false = (POISON, s, STK_BAD_ALLOC) := by
  have hv := verify_of_wf h
  simp only [pop_stack, hv]
  rw [if_neg (by simp), if_neg (by simp; omega), if_pos hshr]
  have hre : realloc_stack s (s.capacity / CAP_FACTOR) false = none := by
    simp [realloc_stack]
  rw [hre]

theorem pop_spec {s : stack_t} (h : Wf s) (hpos : 1 ≤ s.size) (ok : Bool)
    (hok : ok = true ∨ shrinkable s = false) :
    (pop_stack s ok).2.2 = 0 ∧ Wf (pop_stack s ok).2.1 ∧
    (pop_stack s ok).2.1.size = s.size - 1 ∧
    (pop_stack s ok).2.1.capacity =
      (if shrinkable s = true then s.capacity / CAP_FACTOR else s.capacity) ∧
    content (pop_stack s ok).2.1 = (content s).dropLast ∧
    (pop_stack s ok).1 = (content s).getLastD POISON := by
  have hv := verify_of_wf h
  cases hs : s.items with
  | none => exact absurd h.1 (by unfold WfCore; rw [hs]; exact id)
  | some b =>
    have hc2 := h.1
    unfold WfCore at hc2
    rw [hs] at hc2
    obtain ⟨hlen, hsle, hcap, hmax, hlc, hrc, hslc, hsrc⟩ := hc2
    by_cases hshr : shrinkable s = true
    · -- shrink happens; ok must be true
      have hok2 : ok = true := by
        rcases hok with h1 | h1
        · exact h1
        · rw [hshr] at h1
          exact absurd h1 (by simp)
      subst hok2
      have hs16 : 16 ≤ s.capacity := by
        have := shrinkable_bounds hshr
        exact (cap_ok_half hcap this.2).2
      have hszle : s.size ≤ s.capacity / CAP_FACTOR := by
        have hb := shrinkable_bounds hshr
        simp only [CAP_FACTOR] at hb ⊢
        omega
      have hre := realloc_stack_eq hs (s.capacity / CAP_FACTOR)
      have hcoreMid : WfCore
          { items := some (realloc_buf b s.size (s.capacity / CAP_FACTOR)),
            capacity := s.capacity / CAP_FACTOR, size := s.size,
            hash := s.hash, left_canary := s.left_canary,
            right_canary := s.right_canary } := by
        refine WfCore_mk rfl ?_ hszle ?_ ?_ rfl rfl hslc hsrc
        · simp [realloc_buf]
          omega
        · exact (cap_ok_half hcap (shrinkable_bounds hshr).2).1
        · calc s.capacity / CAP_FACTOR ≤ s.capacity := Nat.div_le_self _ _
            _ ≤ CAP_MAX := hmax
      have hcontentMid :
          content
            { items := some (realloc_buf b s.size (s.capacity / CAP_FACTOR)),
              capacity := s.capacity / CAP_FACTOR, size := s.size,
              hash := s.hash, left_canary := s.left_canary,
              right_canary := s.right_canary } = content s := by
        simp only [content, realloc_buf, hs]
        rw [List.take_append_of_le_length (by simp; omega)]
        rw [List.take_take]
        congr 1
        omega
      obtain ⟨p1, p2, p3, p4, p5, p6⟩ := pop_finish_spec hcoreMid hpos
      simp only [pop_stack, hv]
      rw [if_neg (by simp), if_neg (by simp; omega), if_pos hshr, hre]
      refine ⟨p1, p2, ?_, ?_, ?_, ?_⟩
      · rw [p3]
      · rw [p4, if_pos hshr]
      · rw [p5, hcontentMid]
      · rw [p6, hcontentMid]
    · -- no shrink
      obtain ⟨p1, p2, p3, p4, p5, p6⟩ := pop_finish_spec h.1 hpos
      simp only [pop_stack, hv]
      rw [if_neg (by simp), if_neg (by simp; omega),
          if_neg (by simpa using hshr)]
      exact ⟨p1, p2, p3, by rw [p4, if_neg hshr], p5, p6⟩

theorem mk_live_wf {cap sz : Nat} {data : List item_t} (h1 : data.length = cap)
    (h2 : sz ≤ cap) (h3 : cap_ok cap) (h4 : cap ≤ CAP_MAX) :
    Wf (mk_live cap sz data) := by
  refine rehash_wf (WfCore_mk rfl ?_ ?_ ?_ ?_ rfl rfl rfl rfl)
  · simpa [mk_base] using h1
  · simpa [mk_base] using h2
  · simpa [mk_base] using h3
  · simpa [mk_base] using h4

theorem fresh_eq : fresh_stack = mk_live INIT_CAP 0 (List.replicate INIT_CAP POISON) := by
  decide

theorem fresh_wf : Wf fresh_stack := by
  rw [fresh_eq]
  exact mk_live_wf (by decide) (by decide) ⟨0, by decide⟩ (by decide)

theorem fresh_size : fresh_stack.size = 0 := by decide

theorem construct_zero : construct_stack zero_stack true = (fresh_stack, 0) := by
  decide

theorem Wf_bounds {s : stack_t} (h : Wf s) :
    s.size ≤ s.capacity ∧ s.capacity ≤ CAP_MAX ∧ cap_ok s.capacity := by
  have hc := h.1
  unfold WfCore at hc
  cases hs : s.items with
  | none => rw [hs] at hc; exact hc.elim
  | some b =>
    rw [hs] at hc
    exact ⟨hc.2.1, hc.2.2.2.1, hc.2.2.1⟩

theorem wf_content_length {s : stack_t} (h : Wf s) :
    (content s).length = s.size := by
  have hc := h.1
  unfold WfCore at hc
  cases hs : s.items with
  | none => rw [hs] at hc; exact hc.elim
  | some b =>
    rw [hs] at hc
    simp only [content, hs, List.length_take]
    omega

theorem step_wf {s : stack_t} (h : Wf s) (hsz : s.size < CAP_MAX) (op : Op) :
    Wf (step s op) ∧ (step s op).size ≤ s.size + 1 := by
  cases op with
  | push x ok =>
    by_cases hfull : s.capacity = s.size
    · cases ok with
      | false =>
        have he := push_fail h hfull x
        simp only [step, he]
        exact ⟨h, by omega⟩
      | true =>
        obtain ⟨p1, p2, p3, p4, p5⟩ := push_spec h hsz x true (Or.inl rfl)
        exact ⟨p2, by simp only [step]; omega⟩
    · obtain ⟨p1, p2, p3, p4, p5⟩ :=
        push_spec h hsz x ok (Or.inr (fun hc => hfull hc.symm))
      exact ⟨p2, by simp only [step]; omega⟩
  | pop ok =>
    by_cases hsz0 : s.size = 0
    · have he := pop_empty h hsz0 ok
      simp only [step, he]
      exact ⟨h, by omega⟩
    · by_cases hshr : shrinkable s = true
      · cases ok with
        | false =>
          have he := pop_shrink_fail h (by omega) hshr
          simp only [step, he]
          exact ⟨h, by omega⟩
        | true =>
          obtain ⟨p1, p2, p3, p4, p5, p6⟩ := pop_spec h (by omega) true (Or.inl rfl)
          exact ⟨p2, by simp only [step]; omega⟩
      · obtain ⟨p1, p2, p3, p4, p5, p6⟩ :=
          pop_spec h (by omega) ok (Or.inr (by simpa using hshr))
        exact ⟨p2, by simp only [step]; omega⟩

theorem run_wf {ops : List Op} : ∀ {s : stack_t}, Wf s →
    s.size + ops.length ≤ CAP_MAX →
    Wf (run s ops) ∧ (run s ops).size ≤ s.size + ops.length := by
  induction ops with
  | nil =>
    intro s h _
    exact ⟨h, by simp [run]⟩
  | cons op ops ih =>
    intro s h hb
    simp only [List.length_cons] at hb
    have hlt : s.size < CAP_MAX := by omega
    obtain ⟨h1, h2⟩ := step_wf h hlt op
    obtain ⟨h3, h4⟩ := ih h1 (by omega)
    refine ⟨h3, ?_⟩
    simp only [run, List.foldl_cons] at h3 h4 ⊢
    simp only [List.length_cons]
    omega

theorem run_push_replicate {x : item_t} {n : Nat} : ∀ {s : stack_t}, Wf s →
    s.size + n ≤ CAP_MAX →
    Wf (run s (List.replicate n (Op.push x true))) ∧
    (run s (List.replicate n (Op.push x true))).size = s.size + n := by
  induction n with
  | zero =>
    intro s h _
    exact ⟨h, by simp [run]⟩
  | succ n ih =>
    intro s h hb
    obtain ⟨p1, p2, p3, p4, p5⟩ := push_spec h (by omega) x true (Or.inl rfl)
    have hstep : step s (Op.push x true) = (push_stack s x true).1 := rfl
    obtain ⟨h3, h4⟩ := ih (s := (push_stack s x true).1) p2 (by omega)
    rw [List.replicate_succ]
    refine ⟨?_, ?_⟩
    · simpa only [run, List.foldl_cons, hstep] using h3
    · simp only [run, List.foldl_cons, hstep]
      simp only [run] at h4
      omega

theorem run_nil (s : stack_t) : run s [] = s := rfl

theorem run_append (s : stack_t) (l1 l2 : List Op) :
    run s (l1 ++ l2) = run (run s l1) l2 := List.foldl_append _ _ _ _

theorem run_push_one (s : stack_t) (x : item_t) (ok : Bool) :
    run s [Op.push x ok] = (push_stack s x ok).1 := rfl

/-- The sequence of operations that drives the capacity field past
`CAP_MAX`: `2^63 + 1` pushes with every reallocation reported successful. -/
def big_push_ops : List Op := List.replicate (CAP_MAX + 1) (Op.push 0 true)

theorem big_push_ops_eq :
    big_push_ops = List.replicate CAP_MAX (Op.push 0 true) ++ [Op.push 0 true] := by
  unfold big_push_ops
  exact List.replicate_succ' _ _

theorem run_big_state : (run fresh_stack big_push_ops).capacity = 0 ∧
    (run fresh_stack big_push_ops).size = CAP_MAX + 1 := by
  obtain ⟨hw, hsz⟩ := run_push_replicate (x := (0:item_t)) (n := CAP_MAX)
    fresh_wf (by rw [fresh_size]; omega)
  rw [fresh_size] at hsz
  obtain ⟨hb1, hb2, hb3⟩ := Wf_bounds hw
  have hcap : (run fresh_stack (List.replicate CAP_MAX (Op.push 0 true))).capacity
      = CAP_MAX := by omega
  have hov := push_overflow hw hsz hcap (0:item_t)
  rw [big_push_ops_eq, run_append, run_push_one]
  exact ⟨hov.1, hov.2.1⟩

theorem size_eq_max_of_wf {s : stack_t} (h : Wf s) (hge : ¬ s.size < CAP_MAX) :
    s.size = CAP_MAX ∧ s.capacity = CAP_MAX := by
  obtain ⟨hb1, hb2, hb3⟩ := Wf_bounds h
  omega

theorem run_pushes_spec {xs : List item_t} : ∀ {s : stack_t}, Wf s →
    (run_pushes s xs).2 = true →
    Wf (run_pushes s xs).1 ∧
    content (run_pushes s xs).1 = content s ++ xs ∧
    (run_pushes s xs).1.size = s.size + xs.length := by
  induction xs with
  | nil =>
    intro s h _
    exact ⟨h, by simp [run_pushes], by simp [run_pushes]⟩
  | cons x xs ih =>
    intro s h hok
    simp only [run_pushes, Bool.and_eq_true, beq_iff_eq] at hok
    obtain ⟨hok1, hok2⟩ := hok
    by_cases hlt : s.size < CAP_MAX
    · obtain ⟨p1, p2, p3, p4, p5⟩ := push_spec h hlt x true (Or.inl rfl)
      obtain ⟨q1, q2, q3⟩ := ih p2 hok2
      refine ⟨?_, ?_, ?_⟩
      · simpa only [run_pushes] using q1
      · simp only [run_pushes]
        rw [q2, p5]
        simp
      · simp only [run_pushes]
        rw [q3, p3]
        simp only [List.length_cons]
        omega
    · obtain ⟨hsz, hcap⟩ := size_eq_max_of_wf h hlt
      have hov := push_overflow h hsz hcap x
      exact absurd hok1 hov.2.2

theorem run_pops_spec {xs : List item_t} : ∀ {s : stack_t} {ys : List item_t},
    Wf s → content s = ys ++ xs →
    (run_pops s xs.length).1 = xs.reverse ∧
    Wf (run_pops s xs.length).2 ∧
    content (run_pops s xs.length).2 = ys := by
  induction xs using List.reverseRecOn with
  | nil =>
    intro s ys h hc
    simp only [List.length_nil, run_pops]
    simpa using ⟨h, by simpa using hc⟩
  | append_singleton zs z ih =>
    intro s ys h hc
    have hlen : (content s).length = s.size := wf_content_length h
    rw [hc] at hlen
    have hpos : 1 ≤ s.size := by
      simp only [List.length_append, List.length_append, List.length_cons] at hlen
      omega
    obtain ⟨p1, p2, p3, p4, p5, p6⟩ := pop_spec h hpos true (Or.inl rfl)
    have hcz : content s = (ys ++ zs) ++ [z] := by
      rw [hc, List.append_assoc]
    have hvz : (pop_stack s true).1 = z := by
      rw [p6, hcz, List.getLastD_concat]
    have hdz : content (pop_stack s true).2.1 = ys ++ zs := by
      rw [p5, hcz, List.dropLast_concat]
    obtain ⟨q1, q2, q3⟩ := ih p2 hdz
    simp only [List.length_append, List.length_cons, List.length_nil]
    simp only [run_pops]
    refine ⟨?_, q2, q3⟩
    rw [hvz, q1]
    simp

theorem shrinkable_iff (s : stack_t) :
    shrinkable s = true ↔ (s.capacity / 4 + 1 ≥ s.size ∧ 8 < s.capacity) := by
  simp only [shrinkable, Bool.and_eq_true, decide_eq_true_eq, CAP_FACTOR, INIT_CAP]

theorem pop_verify_fail {s : stack_t} (h : (verify_stack s).1 ≠ 0) (ok : Bool) :
    pop_stack s ok = (POISON, s, (verify_stack s).1) := by
  simp only [pop_stack]
  rw [if_pos h, verify_stack_snd]

theorem ite_lor_ne_zero (c : Prop) [Decidable c] (v K : Nat) (h : v ≠ 0) :
    (if c then v ||| K else v) ≠ 0 := by
  split
  · exact lor_ne_zero_left h
  · exact h

theorem ite_lor_ne_zero' (c : Prop) [Decidable c] (v K : Nat) (hc : c)
    (hK : K ≠ 0) : (if c then v ||| K else v) ≠ 0 := by
  rw [if_pos hc]
  exact lor_ne_zero_right hK

theorem verify_empty_ne_zero {s : stack_t}
    (h : s.items ≠ none ∨ s.capacity ≠ 0 ∨ s.size ≠ 0 ∨ s.hash ≠ 0 ∨
         s.left_canary ≠ 0 ∨ s.right_canary ≠ 0) :
    verify_empty_stack s ≠ 0 := by
  simp only [verify_empty_stack]
  rcases h with h | h | h | h | h | h
  · refine ite_lor_ne_zero _ _ _ (ite_lor_ne_zero _ _ _ (ite_lor_ne_zero _ _ _
      (ite_lor_ne_zero _ _ _ (ite_lor_ne_zero _ _ _ ?_))))
    rw [if_pos h]
    decide
  · exact ite_lor_ne_zero _ _ _ (ite_lor_ne_zero _ _ _ (ite_lor_ne_zero _ _ _
      (ite_lor_ne_zero _ _ _ (ite_lor_ne_zero' _ _ _ h (by decide)))))
  · exact ite_lor_ne_zero _ _ _ (ite_lor_ne_zero _ _ _ (ite_lor_ne_zero _ _ _
      (ite_lor_ne_zero' _ _ _ h (by decide))))
  · exact ite_lor_ne_zero _ _ _ (ite_lor_ne_zero _ _ _
      (ite_lor_ne_zero' _ _ _ h (by decide)))
  · exact ite_lor_ne_zero _ _ _ (ite_lor_ne_zero' _ _ _ h (by decide))
  · exact ite_lor_ne_zero' _ _ _ h (by decide)

theorem construct_not_empty {s : stack_t} (hne : verify_empty_stack s ≠ 0)
    (ok : Bool) : construct_stack s ok = (s, verify_empty_stack s) := by
  simp only [construct_stack]
  rw [if_pos hne]

/-- A well-formed live stack whose capacity is not a policy capacity
(9 slots): it passes verification, so `pop` accepts it, shrinks 9 to 4,
and the post-verification then reports `INVALID_CAPACITY` although a real
element was already removed and returned. -/
def odd_stack : stack_t := mk_live 9 1 (42 :: List.replicate 8 POISON)

/-- A well-formed full stack at the maximum capacity `CAP_MAX = 2^63`. -/
def big_stack : stack_t :=
  mk_live CAP_MAX CAP_MAX (List.replicate CAP_MAX POISON)

theorem big_stack_wf : Wf big_stack :=
  mk_live_wf (List.length_replicate _ _) (le_refl _) ⟨60, by decide⟩ (le_refl _)

/-- Claim C1: LIFO order.  (a) From any well-formed stack, a sequence of
pushes that all report success followed by as many pops returns the pushed
values in exact reverse order.  (b) A pop immediately following a
successful `push v` returns exactly `v`, for every value `v` of the element
type — in particular for `v = POISON`, since the quantifier covers it. -/
theorem claim_C1_lifo :
    (∀ (s : stack_t) (xs : List item_t), Wf s → (run_pushes s xs).2 = true →
      (run_pops (run_pushes s xs).1 xs.length).1 = xs.reverse) ∧
    (∀ (s : stack_t) (v : item_t), Wf s → (push_stack s v true).2 = 0 →
      (pop_stack (push_stack s v true).1 true).1 = v) := by
  constructor
  · intro s xs h hok
    obtain ⟨q1, q2, q3⟩ := run_pushes_spec h hok
    exact (run_pops_spec q1 q2).1
  · intro s v h he
    by_cases hlt : s.size < CAP_MAX
    · obtain ⟨p1, p2, p3, p4, p5⟩ := push_spec h hlt v true (Or.inl rfl)
      obtain ⟨q1, q2, q3, q4, q5, q6⟩ := pop_spec p2 (by omega) true (Or.inl rfl)
      rw [q6, p5, List.getLastD_concat]
    · obtain ⟨hsz, hcap⟩ := size_eq_max_of_wf h hlt
      exact absurd he (push_overflow h hsz hcap v).2.2

theorem claim_C1_lifo_witness :
    (run_pops (run_pushes fresh_stack [1, 2, 3]).1 3).1 = [3, 2, 1] ∧
    (pop_stack (push_stack fresh_stack POISON true).1 true).1 = POISON := by
  constructor
  · have h := claim_C1_lifo.1 fresh_stack [1, 2, 3] fresh_wf (by decide)
    simpa using h
  · exact claim_C1_lifo.2 fresh_stack POISON fresh_wf (by decide)

/-- Claim C2: shrink policy.  A pop from a well-formed non-empty stack
(reallocation succeeding) halves the capacity exactly when
`capacity / 4 + 1 ≥ size` — evaluated on the pre-pop size — and
`capacity > 8`; otherwise the capacity is unchanged. -/
theorem claim_C2_shrink : ∀ s : stack_t, Wf s → 1 ≤ s.size →
    (pop_stack s true).2.1.capacity =
      (if s.capacity / 4 + 1 ≥ s.size ∧ 8 < s.capacity
       then s.capacity / 2 else s.capacity) := by
  intro s h hpos
  obtain ⟨p1, p2, p3, p4, p5, p6⟩ := pop_spec h hpos true (Or.inl rfl)
  rw [p4]
  by_cases hc : shrinkable s = true
  · rw [if_pos hc, if_pos ((shrinkable_iff s).1 hc)]
    simp [CAP_FACTOR]
  · rw [if_neg hc, if_neg (fun hx => hc ((shrinkable_iff s).2 hx))]

theorem claim_C2_shrink_witness :
    (pop_stack (mk_live 16 5 (List.replicate 16 (0:item_t))) true).2.1.capacity = 8 ∧
    (pop_stack (mk_live 16 6 (List.replicate 16 (0:item_t))) true).2.1.capacity = 16 := by
  constructor
  · rw [claim_C2_shrink _ (mk_live_wf (by decide) (by decide) ⟨1, by decide⟩
      (by decide)) (by decide)]
    decide
  · rw [claim_C2_shrink _ (mk_live_wf (by decide) (by decide) ⟨1, by decide⟩
      (by decide)) (by decide)]
    decide

set_option maxRecDepth 8000 in
theorem push9_capacity :
    (run_pushes fresh_stack (List.replicate 9 (0:item_t))).1.capacity = 16 := by
  decide

set_option maxRecDepth 8000 in
theorem push17_capacity :
    (run_pushes fresh_stack (List.replicate 17 (0:item_t))).1.capacity = 32 := by
  decide

/-- Claim C3 (amended): growth policy.  (a) A successful-verification push
(reallocation succeeding, size below `CAP_MAX`) doubles the capacity
exactly when `size = capacity` and otherwise leaves it unchanged; (b) from
a fresh construct the 9th push leaves capacity 16 and the 17th leaves 32;
(c) after any sequence of at most `CAP_MAX = 2^63` push/pop operations
(arbitrary allocation outcomes) the capacity is `INIT_CAP` times a power of
two.  The length bound in (c) is what the counterexample forces: the
original claim fails for the `2^63 + 1`-push sequence, whose last push
wraps the capacity field to 0. -/
theorem claim_C3_growth :
    (∀ (s : stack_t) (x : item_t), Wf s → s.size < CAP_MAX →
      (push_stack s x true).1.capacity =
        (if s.size = s.capacity then s.capacity * CAP_FACTOR else s.capacity)) ∧
    (run_pushes fresh_stack (List.replicate 9 (0:item_t))).1.capacity = 16 ∧
    (run_pushes fresh_stack (List.replicate 17 (0:item_t))).1.capacity = 32 ∧
    (∀ ops : List Op, ops.length ≤ CAP_MAX →
      cap_ok ((run fresh_stack ops).capacity)) := by
  refine ⟨?_, push9_capacity, push17_capacity, ?_⟩
  · intro s x h hlt
    exact (push_spec h hlt x true (Or.inl rfl)).2.2.2.1
  · intro ops hlen
    have hb : fresh_stack.size + ops.length ≤ CAP_MAX := by
      rw [fresh_size]
      omega
    obtain ⟨hw, _⟩ := run_wf fresh_wf hb
    exact (Wf_bounds hw).2.2

theorem claim_C3_growth_witness :
    (push_stack (mk_live 8 8 (List.replicate 8 (0:item_t))) 1 true).1.capacity = 16 ∧
    cap_ok ((run fresh_stack [Op.push 1 true]).capacity) := by
  constructor
  · rw [claim_C3_growth.1 (mk_live 8 8 (List.replicate 8 (0:item_t))) 1
      (mk_live_wf (by decide) (by decide) ⟨0, by decide⟩ (by decide)) (by decide)]
    decide
  · exact claim_C3_growth.2.2.2 [Op.push 1 true] (by decide)

/-- Claim C3, counterexample to the original statement: after the concrete
sequence of `2^63 + 1` pushes (allocation succeeding) starting from a fresh
construct, the capacity is 0, which is not `INIT_CAP` times a power of two
— the unchecked doubling at `capacity = CAP_MAX` wrapped the `size_t`
capacity field. -/
theorem claim_C3_growth_cex :
    ¬ cap_ok ((run fresh_stack big_push_ops).capacity) := by
  rw [run_big_state.1]
  intro hc
  have h8 := cap_ok_ge hc
  simp [INIT_CAP] at h8

/-- Claim C4 (amended): allocation-failure atomicity.  When the growth
reallocation fails, push reports `STK_BAD_ALLOC` and the stack — size,
capacity, buffer, every field — is exactly as before; the item is not
stored.  (The `CAP_MAX` half of the original claim is refuted by
`claim_C4_alloc_cex`: no pre-check against `CAP_MAX` exists.) -/
theorem claim_C4_alloc : ∀ (s : stack_t) (x : item_t), Wf s →
    s.capacity = s.size → push_stack s x false = (s, STK_BAD_ALLOC) :=
  fun _ x h hf => push_fail h hf x

theorem claim_C4_alloc_witness :
    push_stack (mk_live 8 8 (List.replicate 8 (0:item_t))) 5 false =
      (mk_live 8 8 (List.replicate 8 (0:item_t)), STK_BAD_ALLOC) :=
  claim_C4_alloc _ 5
    (mk_live_wf (by decide) (by decide) ⟨0, by decide⟩ (by decide)) rfl

/-- Claim C4, counterexample to the original statement: at the well-formed
full stack of capacity `CAP_MAX` — where growth would exceed the maximum
capacity — a push with successful reallocation is *not* all-or-nothing:
the capacity field wraps to 0, the size still increments to `CAP_MAX + 1`,
and an error is reported only afterwards, by post-verification. -/
theorem claim_C4_alloc_cex :
    big_stack.capacity = CAP_MAX ∧ big_stack.size = big_stack.capacity ∧
    CAP_MAX < big_stack.capacity * CAP_FACTOR ∧
    (push_stack big_stack 0 true).1.size = CAP_MAX + 1 ∧
    (push_stack big_stack 0 true).1.capacity = 0 ∧
    (push_stack big_stack 0 true).2 ≠ 0 := by
  have hov := push_overflow big_stack_wf rfl rfl (0:item_t)
  exact ⟨rfl, rfl, by decide, hov.2.1, hov.1, hov.2.2⟩

/-- Claim C5: popping an empty well-formed stack reports `STK_EMPTY_POP`,
returns the poison sentinel, and leaves the whole stack state — size,
capacity and every other field — exactly unchanged. -/
theorem claim_C5_empty_pop : ∀ (s : stack_t) (ok : Bool), Wf s → s.size = 0 →
    pop_stack s ok = (POISON, s, STK_EMPTY_POP) :=
  fun _ ok h hz => pop_empty h hz ok

theorem claim_C5_empty_pop_witness :
    pop_stack fresh_stack true = (POISON, fresh_stack, STK_EMPTY_POP) :=
  claim_C5_empty_pop fresh_stack true fresh_wf fresh_size

/-- Claim C6 (amended): invariants.  For every sequence of at most
`CAP_MAX = 2^63` push/pop operations (arbitrary allocation outcomes)
applied to a fresh construct, the resulting state satisfies
`size ≤ capacity` and `capacity ≥ INIT_CAP = 8`; since every prefix of such
a sequence is itself such a sequence, the invariants hold after every
operation, and in particular repeated pops never shrink the capacity below
8.  The length bound is what the counterexample forces: the original claim
fails after `2^63 + 1` pushes, which wrap the capacity field to 0. -/
theorem claim_C6_invariants : ∀ ops : List Op, ops.length ≤ CAP_MAX →
    (run fresh_stack ops).size ≤ (run fresh_stack ops).capacity ∧
    INIT_CAP ≤ (run fresh_stack ops).capacity := by
  intro ops hlen
  have hb : fresh_stack.size + ops.length ≤ CAP_MAX := by
    rw [fresh_size]
    omega
  obtain ⟨hw, _⟩ := run_wf fresh_wf hb
  obtain ⟨h1, h2, h3⟩ := Wf_bounds hw
  exact ⟨h1, cap_ok_ge h3⟩

theorem claim_C6_invariants_witness :
    (run fresh_stack [Op.push 1 true, Op.pop true]).size ≤
      (run fresh_stack [Op.push 1 true, Op.pop true]).capacity ∧
    INIT_CAP ≤ (run fresh_stack [Op.push 1 true, Op.pop true]).capacity :=
  claim_C6_invariants [Op.push 1 true, Op.pop true] (by decide)

/-- Claim C6, counterexample to the original statement: after the concrete
sequence of `2^63 + 1` pushes (allocation succeeding) from a fresh
construct, the capacity is 0: both invariants fail — the capacity is below
the minimum 8 and the size (`2^63 + 1`) exceeds it. -/
theorem claim_C6_invariants_cex :
    ¬ ((run fresh_stack big_push_ops).size ≤
         (run fresh_stack big_push_ops).capacity ∧
       INIT_CAP ≤ (run fresh_stack big_push_ops).capacity) := by
  rw [run_big_state.1, run_big_state.2]
  decide

/-- Claim C7: construct discipline.  On any stack that is not in the
zeroed/unconstructed state — any field nonzero — `construct_stack` fails
with the nonzero "not empty" verification bitmask, performs no allocation
(its result does not depend on the allocation oracle), and leaves every
field unchanged. -/
theorem claim_C7_construct : ∀ (s : stack_t) (ok : Bool),
    (s.items ≠ none ∨ s.capacity ≠ 0 ∨ s.size ≠ 0 ∨ s.hash ≠ 0 ∨
     s.left_canary ≠ 0 ∨ s.right_canary ≠ 0) →
    construct_stack s ok = (s, verify_empty_stack s) ∧
    verify_empty_stack s ≠ 0 := by
  intro s ok h
  have hne := verify_empty_ne_zero h
  exact ⟨construct_not_empty hne ok, hne⟩

theorem claim_C7_construct_witness :
    construct_stack { zero_stack with size := 1 } true =
      ({ zero_stack with size := 1 },
       verify_empty_stack { zero_stack with size := 1 }) ∧
    verify_empty_stack { zero_stack with size := 1 } ≠ 0 :=
  claim_C7_construct { zero_stack with size := 1 } true
    (Or.inr (Or.inr (Or.inl (by decide))))

/-- Claim C8: destruct resets every field to the zero-initialized state;
a second destruct yields the same zeroed state and does not call `free`
again (the flag is `false`); and construct succeeds again (error 0) on the
destructed stack. -/
theorem claim_C8_destruct : ∀ s : stack_t,
    (destruct_stack s).1 = zero_stack ∧
    destruct_stack (destruct_stack s).1 = (zero_stack, false) ∧
    (construct_stack (destruct_stack s).1 true).2 = 0 := by
  intro s
  refine ⟨rfl, rfl, ?_⟩
  show (construct_stack zero_stack true).2 = 0
  rw [construct_zero]

/-- Claim C9: the verifier is read-only up to its internal save/restore of
the hash field: the stack state it returns — every field, including the
buffer contents — equals the input state, for arbitrary (also corrupted)
states.  Its first component is the violation bitmask. -/
theorem claim_C9_verify_pure : ∀ s : stack_t, (verify_stack s).2 = s :=
  verify_stack_snd

theorem pop_finish_fst (t : stack_t) :
    (pop_finish t).1 = read_item t (t.size - 1) := by
  cases t with
  | mk items capacity size hash lc rc => cases items <;> rfl

theorem read_item_eq_buf_data (s : stack_t) (i : Nat) :
    read_item s i = (buf_data s).getD i POISON := by
  cases hs : s.items <;> simp [read_item, buf_data, hs]

theorem realloc_stack_some_true (s : stack_t) (c : Nat) :
    realloc_stack s c true =
      some { addr := buf_addr s,
             data := (buf_data s).take s.size ++
               List.replicate (c - s.size) POISON,
             lcanary := Nat.xor CANARY (buf_addr s),
             rcanary := Nat.xor CANARY (buf_addr s) } := by
  cases hs : s.items <;> simp [realloc_stack, buf_data, buf_addr, hs]

theorem getD_take_append_replicate {l : List item_t} {sz c : Nat} (h : 1 ≤ sz) :
    (l.take sz ++ List.replicate (c - sz) POISON).getD (sz - 1) POISON =
      l.getD (sz - 1) POISON := by
  rw [List.getD_eq_getElem?_getD, List.getD_eq_getElem?_getD]
  rcases Nat.lt_or_ge (sz - 1) (l.take sz).length with hlt | hge
  · rw [List.getElem?_append_left hlt, List.getElem?_take_of_lt (by omega)]
  · rw [List.getElem?_append_right hge]
    have hlen : l.length ≤ sz - 1 := by
      simp only [List.length_take] at hge
      omega
    rw [List.getElem?_eq_none hlen, List.getElem?_replicate]
    split <;> rfl

theorem pop_empty_any {s : stack_t} (hv0 : (verify_stack s).1 = 0)
    (hz : s.size = 0) (ok : Bool) :
    pop_stack s ok = (POISON, s, STK_EMPTY_POP) := by
  simp only [pop_stack, hv0, verify_stack_snd]
  rw [if_neg (by simp), if_pos (by simpa using hz)]

theorem pop_shrink_fail_any {s : stack_t} (hv0 : (verify_stack s).1 = 0)
    (hnz : s.size ≠ 0) (hshr : shrinkable s = true) :
    pop_stack s false = (POISON, s, STK_BAD_ALLOC) := by
  simp only [pop_stack, hv0, verify_stack_snd]
  rw [if_neg (by simp), if_neg (by simpa using hnz), if_pos hshr]
  have hre : realloc_stack s (s.capacity / CAP_FACTOR) false = none := by
    simp [realloc_stack]
  rw [hre]

theorem pop_value_any {s : stack_t} (hv0 : (verify_stack s).1 = 0)
    (hnz : s.size ≠ 0) (ok : Bool) (hok : ok = true ∨ shrinkable s = false) :
    (pop_stack s ok).1 = read_item s (s.size - 1) := by
  simp only [pop_stack, hv0, verify_stack_snd]
  rw [if_neg (by simp), if_neg (by simpa using hnz)]
  by_cases hshr : shrinkable s = true
  · have hok2 : ok = true := by
      rcases hok with h1 | h1
      · exact h1
      · rw [hshr] at h1
        exact absurd h1 (by simp)
    subst hok2
    rw [if_pos hshr, realloc_stack_some_true]
    rw [pop_finish_fst]
    show ((buf_data s).take s.size ++
      List.replicate (s.capacity / CAP_FACTOR - s.size) POISON).getD
        (s.size - 1) POISON = read_item s (s.size - 1)
    rw [read_item_eq_buf_data]
    exact getD_take_append_replicate (by omega)
  · rw [if_neg hshr, pop_finish_fst]

/-- Claim C10 (amended): pop error paths.  For every stack — well-formed or
not — and every allocation outcome: (a) if the incoming verification fails,
pop returns the poison sentinel, that bitmask as its error, and the
unchanged state; (b) if verification passes and the stack is empty, pop
returns poison with `STK_EMPTY_POP` and the unchanged state; (c) if
verification passes, the stack is non-empty and shrinkable, and the
reallocation fails, pop returns poison with `STK_BAD_ALLOC` and the
unchanged state; (d) on every remaining path — verification passed, size
nonzero, the shrink reallocation (if any) succeeding — the returned value
is the buffer slot at the decremented size index, i.e. the removed
element, even when the post-verification afterwards reports an error.
Case (d) at a non-policy capacity is what refutes the original claim
(`claim_C10_poison_cex`). -/
theorem claim_C10_poison : ∀ (s : stack_t) (ok : Bool),
    ((verify_stack s).1 ≠ 0 → pop_stack s ok = (POISON, s, (verify_stack s).1)) ∧
    ((verify_stack s).1 = 0 → s.size = 0 →
      pop_stack s ok = (POISON, s, STK_EMPTY_POP)) ∧
    ((verify_stack s).1 = 0 → s.size ≠ 0 → shrinkable s = true →
      pop_stack s false = (POISON, s, STK_BAD_ALLOC)) ∧
    ((verify_stack s).1 = 0 → s.size ≠ 0 → (ok = true ∨ shrinkable s = false) →
      (pop_stack s ok).1 = read_item s (s.size - 1)) := by
  intro s ok
  refine ⟨fun h => pop_verify_fail h ok,
    fun hv hz => pop_empty_any hv hz ok,
    fun hv hnz hshr => pop_shrink_fail_any hv hnz hshr,
    fun hv hnz hok => pop_value_any hv hnz ok hok⟩

theorem claim_C10_poison_witness :
    pop_stack zero_stack true = (POISON, zero_stack, (verify_stack zero_stack).1) ∧
    pop_stack fresh_stack false = (POISON, fresh_stack, STK_EMPTY_POP) ∧
    pop_stack (mk_live 16 5 (List.replicate 16 (0:item_t))) false =
      (POISON, mk_live 16 5 (List.replicate 16 (0:item_t)), STK_BAD_ALLOC) ∧
    (pop_stack odd_stack true).1 = read_item odd_stack (odd_stack.size - 1) := by
  refine ⟨(claim_C10_poison zero_stack true).1 (by decide),
    (claim_C10_poison fresh_stack false).2.1 (by decide) fresh_size,
    (claim_C10_poison (mk_live 16 5 (List.replicate 16 (0:item_t))) false).2.2.1
      (by decide) (by decide) (by decide),
    (claim_C10_poison odd_stack true).2.2.2 (by decide) (by decide) (Or.inl rfl)⟩

/-- Claim C10, counterexample to the original statement: on the well-formed
stack of (non-policy) capacity 9 and size 1, pop passes incoming
verification, shrinks 9 to 4, removes and returns the real element 42 —
not the poison sentinel — and still reports a nonzero error
(`INVALID_CAPACITY` from the post-verification, an error path the claim's
enumeration omits). -/
theorem claim_C10_poison_cex :
    (pop_stack odd_stack true).2.2 ≠ 0 ∧
    (pop_stack odd_stack true).1 = 42 ∧ (pop_stack odd_stack true).1 ≠ POISON := by
  refine ⟨by decide, by decide, by decide⟩
